import Mathlib

/-!
Verification of the Inventory-Distribution-Manager repository.

The Python sources (`core.py`, the matching library, and `app.py`, the
interactive application) are shallowly embedded below: spreadsheet cell
values become the inductive `PyVal`, tables become `DataFrame` (ordered
column headers plus rows of cells), Python dictionaries become association
lists, and the imperative loops become structural recursions that build the
same lists in the same order.  Finite floating-point values are modelled as
exact rationals (the code only ever inspects finiteness, integrality,
truncation and the `x.0` rendering of integral floats, all of which are
exact); `NaN`/`None` are separate constructors.  Python `str` functions
(`strip`, `casefold`/`lower`, `endswith`, `rsplit`, `replace`, `isdigit`)
are reimplemented on the underlying character lists; `casefold`/`lower`
are modelled on the ASCII range, which covers every literal the program
compares against.
-/

namespace InvDist

/-- A Python value as read from a spreadsheet cell: `None`, a float `NaN`,
an `int`, a finite `float` (modelled as an exact rational), or a `str`. -/
inductive PyVal where
  | noneV : PyVal
  | nanV : PyVal
  | intV : Int → PyVal
  | floatV : ℚ → PyVal
  | strV : String → PyVal
deriving DecidableEq, Repr

/-- `pd.isna`: true exactly on `None` and float `NaN`. -/
def isNA : PyVal → Bool
  | .noneV => true
  | .nanV => true
  | _ => false

/-- Python whitespace as stripped by `str.strip()`: space, tab, newline,
carriage return, vertical tab, form feed. -/
def isPySpace (c : Char) : Bool :=
  c.toNat = 32 || c.toNat = 9 || c.toNat = 10 || c.toNat = 13 || c.toNat = 11 || c.toNat = 12

/-- ASCII decimal digit test (`str.isdigit` restricted to ASCII). -/
def isDigitCh (c : Char) : Bool :=
  48 ≤ c.toNat && c.toNat ≤ 57

/-- `str.lower` / `str.casefold` on one character, modelled on the ASCII
range: `A`–`Z` map to `a`–`z`, everything else is unchanged. -/
def lowC (c : Char) : Char :=
  if 65 ≤ c.toNat ∧ c.toNat ≤ 90 then Char.ofNat (c.toNat + 32) else c

/-- `str.lower` / `str.casefold` on a string (ASCII model). -/
def pyLower (s : String) : String := ⟨s.data.map lowC⟩

/-- `str.strip()` on a character list. -/
def pyStripList (l : List Char) : List Char :=
  ((l.dropWhile isPySpace).reverse.dropWhile isPySpace).reverse

/-- `str.strip()`. -/
def pyStrip (s : String) : String := ⟨pyStripList s.data⟩

/-- `str.endswith(suffix)`. -/
def pyEndsWith (s suffix : String) : Bool :=
  suffix.data.isSuffixOf s.data

/-- `s[:-2]` on the character list: drop the final two characters. -/
def dropLast2 (l : List Char) : List Char := l.dropLast.dropLast

/-- `str.replace(".", "", 1)`: remove the first `.`, if any. -/
def removeFirstDot : List Char → List Char
  | [] => []
  | c :: cs => if c = '.' then cs else c :: removeFirstDot cs

/-- `str.isdigit()`: non-empty and every character a digit (ASCII model). -/
def pyIsDigitStr (l : List Char) : Bool :=
  !l.isEmpty && l.all isDigitCh

/-- `str.replace(",", "")`: remove every comma. -/
def removeCommas (s : String) : String := ⟨s.data.filter (fun c => c ≠ ',')⟩

/-- Decimal digits of a natural number, fuel-based so that the kernel can
evaluate it (mirrors Python `str` on a non-negative `int`). -/
def natReprAux : Nat → Nat → List Char → List Char
  | 0, _, acc => acc
  | fuel + 1, n, acc =>
      let acc' := Char.ofNat (48 + n % 10) :: acc
      if n < 10 then acc' else natReprAux fuel (n / 10) acc'

/-- Decimal digit string of a natural number. -/
def natRepr (n : Nat) : List Char := natReprAux (n + 1) n []

/-- Python `str(int)`: decimal string, `-`-prefixed when negative. -/
def intReprStr (n : Int) : String :=
  if n < 0 then ⟨'-' :: natRepr n.natAbs⟩ else ⟨natRepr n.toNat⟩

/-- Rendering of a non-integral finite float.  Python renders floats by
shortest round-trip decimal; floats are modelled as exact rationals here, so
non-integral values get a `num/den` rendering.  No verified operation below
depends on the exact text of this branch. -/
def nonIntFloatStr (q : ℚ) : String :=
  intReprStr q.num ++ "/" ++ intReprStr (q.den : Int)

/-- Python `str()` of a cell value.  Integral floats render as `n.0`,
exactly as Python renders them. -/
def pyStr : PyVal → String
  | .noneV => "None"
  | .nanV => "nan"
  | .intV n => intReprStr n
  | .floatV q =>
      if q.den = 1 then intReprStr q.num ++ ".0" else nonIntFloatStr q
  | .strV s => s

/-- `core.normalize_key` (`core.py` lines 9–22): canonical string form of a
raw cell value.  `None`/`NaN` give `""`; ints give their decimal string;
finite integral floats give the decimal string of their integer value;
other floats give their trimmed string form; any other value is stringified
and trimmed, and a trailing `.0` is stripped when the remaining prefix
(with at most one `.` removed) is all digits. -/
def normalize_key : PyVal → String
  | .noneV => ""
  | .nanV => ""
  | .intV n => intReprStr n
  | .floatV q =>
      if q.den = 1 then intReprStr q.num
      else pyStrip (pyStr (.floatV q))
  | .strV s0 =>
      let s := pyStrip s0
      if pyEndsWith s ".0" && pyIsDigitStr (removeFirstDot (dropLast2 s.data)) then
        ⟨dropLast2 s.data⟩
      else s

/-- The case-insensitive "no size" variants recognised by
`core.normalize_size`. -/
def noSizeVariants : List String := ["no_size", "no size", "nosize", "no-size"]

/-- `core.normalize_size` (`core.py` lines 25–37): `None`/`NaN`/`""` give
the sentinel `"NO_SIZE"`; otherwise trim, strip a trailing `.0`, and map
case-insensitive textual "no size" variants to the sentinel. -/
def normalize_size (val : PyVal) : String :=
  if isNA val || val = .strV "" then "NO_SIZE"
  else
    let s := pyStrip (pyStr val)
    if s = "" then "NO_SIZE"
    else
      let s' := if pyEndsWith s ".0" then (⟨dropLast2 s.data⟩ : String) else s
      if noSizeVariants.contains (pyLower s') then "NO_SIZE" else s'

/-- Split a character list at the LAST occurrence of `pat`
(`str.rsplit(pat, 1)`); `none` when `pat` does not occur. -/
def splitOnLastAux (pat : List Char) : List Char → Option (List Char × List Char)
  | [] => Option.none
  | c :: cs =>
      match splitOnLastAux pat cs with
      | some (l, r) => some (c :: l, r)
      | Option.none =>
          if pat.isPrefixOf (c :: cs) then some ([], (c :: cs).drop pat.length)
          else Option.none

/-- `s.rsplit(" - ", 1)` as an optional (left, right) pair; `none` exactly
when `" - "` does not occur in `s`. -/
def splitLastSep (s : String) : Option (String × String) :=
  (splitOnLastAux " - ".data s.data).map (fun p => (⟨p.1⟩, ⟨p.2⟩))

/-- `core.item_name_to_title_size` (`core.py` lines 40–59): split a product
list item name into (title, size) at the last `" - "`; fall back to the
whole normalized string with size `"NO_SIZE"` when there is no separator,
the left part trims to empty, or the right part normalizes to empty or to
the sentinel. -/
def item_name_to_title_size (item_name : PyVal) : String × String :=
  if item_name = .noneV ∨ item_name = .nanV then ("", "NO_SIZE")
  else
    let s := normalize_key item_name
    if s = "" then ("", "NO_SIZE")
    else
      match splitLastSep s with
      | some (l, r) =>
          let title := pyStrip l
          let size := normalize_size (.strV (pyStrip r))
          if title ≠ "" ∧ size ≠ "" ∧ size ≠ "NO_SIZE" then (title, size)
          else (pyStrip s, "NO_SIZE")
      | Option.none => (pyStrip s, "NO_SIZE")

/-- `core.build_title_size_key` (`core.py` lines 62–69): the canonical join
key.  Empty normalized title gives `""`; a real size gives the casefolded
`"{title} - {size}"`; otherwise the casefolded title alone. -/
def build_title_size_key (title size : String) : String :=
  let title_norm := pyStrip (normalize_key (.strV title))
  let size_norm := normalize_size (.strV size)
  if title_norm = "" then ""
  else if size_norm ≠ "" ∧ size_norm ≠ "NO_SIZE" then
    pyLower (title_norm ++ " - " ++ size_norm)
  else pyLower title_norm

/-- Substring containment test (Python `pat in s`). -/
def containsSub (pat : List Char) : List Char → Bool
  | [] => pat.isEmpty
  | c :: cs => pat.isPrefixOf (c :: cs) || containsSub pat cs

/-- Python `pat in s` on strings. -/
def strContains (s pat : String) : Bool := containsSub pat.data s.data

/-- Python truthiness of an optional string (`if not col: ...`): falsy when
absent or empty. -/
def optTruthy : Option String → Bool
  | Option.none => false
  | some s => s ≠ ""

/-- Insert into a Python dict modelled as an association list: an existing
key keeps its position and gets the new value, a new key is appended. -/
def dictUpsert (m : List (String × String)) (k v : String) : List (String × String) :=
  if m.any (fun p => p.1 = k) then m.map (fun p => if p.1 = k then (k, v) else p)
  else m ++ [(k, v)]

/-- `{c.lower().strip(): c for c in cols}` from `core.identify_columns`:
lowercase-trimmed header mapped to the original header, Python dict
semantics (first-insertion order, last value wins). -/
def colsMap (cols : List String) : List (String × String) :=
  cols.foldl (fun m c => dictUpsert m (pyStrip (pyLower c)) c) []

/-- Accumulator of the detection loop in `core.identify_columns`. -/
structure ColState where
  szCol : Option String
  qtyCol : Option String
  titleCol : Option String
deriving DecidableEq, Repr

/-- One iteration of the header loop of `core.identify_columns`
(`core.py` lines 81–90), on a (lowered-trimmed, original) header pair. -/
def identifyStep (st : ColState) (p : String × String) : ColState :=
  let cl := p.1
  let co := p.2
  let st1 := if strContains cl "size" && st.szCol.isNone then { st with szCol := some co } else st
  let st2 :=
    if (strContains cl "quantity" || strContains cl "qty" || strContains cl "stock")
        && st1.qtyCol.isNone then
      { st1 with qtyCol := some co }
    else st1
  if (strContains cl "item name" || strContains cl "product name") && st2.titleCol.isNone then
    { st2 with titleCol := some co }
  else if strContains cl "title" && st2.titleCol.isNone then
    { st2 with titleCol := some co }
  else st2

/-- `core.identify_columns` (`core.py` lines 72–95): auto-detect the Size,
Quantity and Title columns from the headers; a THREE-component result
(the application call site in `app.py` line 213 unpacks four values,
expecting an additional SKU component that this function does not
produce). -/
def identify_columns (cols : List String) : Option String × Option String × Option String :=
  let st := (colsMap cols).foldl identifyStep ⟨Option.none, Option.none, Option.none⟩
  let qty := if !optTruthy st.qtyCol && cols.contains "Quantity" then some "Quantity" else st.qtyCol
  (st.szCol, qty, st.titleCol)

/-- A tabular dataset: ordered column headers and rows of cells.  A row is
aligned positionally with `cols`. -/
structure DataFrame where
  cols : List String
  rows : List (List PyVal)
deriving DecidableEq, Repr

/-- A well-formed (rectangular) dataframe: every row has one cell per
column, as pandas guarantees. -/
def dfWF (df : DataFrame) : Prop :=
  ∀ r ∈ df.rows, r.length = df.cols.length

/-- Index of the first column with the given header. -/
def colIdx : List String → String → Option Nat
  | [], _ => Option.none
  | c :: cs, t => if c = t then some 0 else (colIdx cs t).map (· + 1)

/-- `row.get(col, default)`: the cell of `row` under header `col`, or the
default when the column is absent. -/
def rowGet (cols : List String) (row : List PyVal) (c : String) (default : PyVal) : PyVal :=
  match colIdx cols c with
  | some i => row.getD i default
  | Option.none => default

/-- Truncating zip-with (both `pandas` column assignment and `zip`
truncate at the shorter list; in every use below the lengths agree). -/
def map2 {α β γ : Type} (f : α → β → γ) : List α → List β → List γ
  | a :: as, b :: bs => f a b :: map2 f as bs
  | _, _ => []

/-- `df[c] = vals`: replace the first column named `c`, or append a new
column of that name. -/
def setCol (df : DataFrame) (c : String) (vals : List PyVal) : DataFrame :=
  match colIdx df.cols c with
  | some i => { df with rows := map2 (fun r v => r.set i v) df.rows vals }
  | Option.none => { cols := df.cols ++ [c], rows := map2 (fun r v => r ++ [v]) df.rows vals }

/-- The cell of `df` at row index `i`, column header `c` (first matching
column), when both exist. -/
def getCell (df : DataFrame) (i : Nat) (c : String) : Option PyVal :=
  match colIdx df.cols c, df.rows[i]? with
  | some j, some r => r[j]?
  | _, _ => Option.none

/-- `core.add_title_size_column` (`core.py` lines 98–112): augment an
inventory dataframe with a `"Title - Size"` column, computed per row from
the detected title and (optional) size columns. -/
def add_title_size_column (df : DataFrame) (title_col : String) (size_col : Option String) :
    DataFrame :=
  let vals := df.rows.map (fun r =>
    let title := normalize_key (rowGet df.cols r title_col (.strV ""))
    let size :=
      match size_col with
      | some sc =>
          if sc ≠ "" ∧ df.cols.contains sc then normalize_size (rowGet df.cols r sc (.strV ""))
          else "NO_SIZE"
      | Option.none => "NO_SIZE"
    if title ≠ "" ∧ size ≠ "" ∧ size ≠ "NO_SIZE" then PyVal.strV (title ++ " - " ++ size)
    else PyVal.strV title)
  setCol df "Title - Size" vals

/-- A parsed decimal literal for Python `float(...)`: optional sign, then
digits with at most one `.`.  Scientific notation, `inf`, `nan` and
underscores are outside the modelled scope and count as parse failures
(which the code turns into quantity 0). -/
def parseDecimal (l : List Char) : Option ℚ :=
  let core := fun (l : List Char) =>
    let intPart := l.takeWhile isDigitCh
    let rest := l.drop intPart.length
    let parsed : Option ℚ :=
      match rest with
      | [] => if intPart.isEmpty then Option.none else
          some ((intPart.foldl (fun a c => a * 10 + (c.toNat - 48)) 0 : ℕ) : ℚ)
      | '.' :: frac =>
          if frac.all isDigitCh ∧ ¬(intPart.isEmpty ∧ frac.isEmpty) then
            some (((intPart.foldl (fun a c => a * 10 + (c.toNat - 48)) 0 : ℕ) : ℚ)
              + ((frac.foldl (fun a c => a * 10 + (c.toNat - 48)) 0 : ℕ) : ℚ)
                / ((10 : ℚ) ^ frac.length))
          else Option.none
      | _ => Option.none
    parsed
  match l with
  | '-' :: rest => (core rest).map (fun q => -q)
  | '+' :: rest => core rest
  | _ => core l

/-- `int(q)` on a float: truncation toward zero. -/
def ratTrunc (q : ℚ) : Int := if 0 ≤ q then ⌊q⌋ else ⌈q⌉

/-- The quantity parsing of `core.load_inventory_from_uploads`
(`core.py` lines 150–161): absent values give 0; text has comma
thousands-separators and whitespace stripped (empty text gives 0), is
parsed as a float and truncated to an integer; any parse failure is
swallowed to 0. -/
def parseQty (v : PyVal) : Int :=
  match v with
  | .noneV => 0
  | .nanV => 0
  | .intV n => n
  | .floatV q => ratTrunc q
  | .strV s =>
      let s' := pyStrip (removeCommas s)
      if s' = "" then 0
      else
        match parseDecimal s'.data with
        | some q => ratTrunc q
        | Option.none => 0

/-- An inventory record: per-location quantities (a Python dict modelled as
an association list in insertion order). -/
abbrev LocRecord := List (String × Int)

/-- The inventory map: Title-Size key to per-location record. -/
abbrev Inventory := List (String × LocRecord)

/-- `rec.get(loc, 0)`. -/
def recGet (rec : LocRecord) (loc : String) : Int := (List.lookup loc rec).getD 0

/-- `rec[loc] += qty` on an existing per-location record: bump the first
entry named `loc` (a Python dict holds each key once). -/
def recAdd : LocRecord → String → Int → LocRecord
  | [], _, _ => []
  | p :: ps, loc, q => if p.1 = loc then (p.1, p.2 + q) :: ps else p :: recAdd ps loc q

/-- The accumulation step of `core.load_inventory_from_uploads`
(`core.py` lines 167–169): a fresh key starts as `{loc: 0 for loc in
all_locations}`, then the current location is bumped by `qty`. -/
def invUpsert (inv : Inventory) (all_locations : List String) (key loc : String) (qty : Int) :
    Inventory :=
  match List.lookup key inv with
  | some _ => inv.map (fun p => if p.1 = key then (p.1, recAdd p.2 loc qty) else p)
  | Option.none => inv ++ [(key, recAdd (all_locations.map (fun l => (l, 0))) loc qty)]

/-- The per-row loop of `core.load_inventory_from_uploads` (`core.py`
lines 149–169) over one (already augmented) location file. -/
def processRows (all_locations : List String) (loc_name : String) (cols : List String)
    (qty_col : Option String) : List (List PyVal) → Inventory → Inventory
  | [], inv => inv
  | r :: rs, inv =>
      let qty : Int :=
        match qty_col with
        | some qc => if qc ≠ "" ∧ cols.contains qc then parseQty (rowGet cols r qc .noneV) else 0
        | Option.none => 0
      let joined := normalize_key (rowGet cols r "Title - Size" (.strV ""))
      let key := if joined ≠ "" then pyLower joined else ""
      let inv' := if key = "" then inv else invUpsert inv all_locations key loc_name qty
      processRows all_locations loc_name cols qty_col rs inv'

/-- State threaded through the per-file loop of
`core.load_inventory_from_uploads`. -/
structure LoadState where
  inventory : Inventory
  warnings : List String
  enriched : List (String × DataFrame)
deriving Repr

/-- One location file of `core.load_inventory_from_uploads` (`core.py`
lines 132–169): skip absent files, warn and skip files with no Title
column, warn (but keep, with zero quantities) files with no Quantity
column, augment with the `"Title - Size"` column and accumulate rows.
Files arrive already parsed, so the per-file read-error catch of the
source has no failing branch to model. -/
def processFile (all_locations : List String) (st : LoadState)
    (entry : String × Option DataFrame) : LoadState :=
  match entry.2 with
  | Option.none => st
  | some df0 =>
      let idc := identify_columns df0.cols
      if !optTruthy idc.2.2 then
        { st with warnings := st.warnings ++
            ["⚠️ " ++ entry.1 ++ ": Missing \x27Title/Item Name\x27 column. Skipped."] }
      else
        let st1 :=
          if !optTruthy idc.2.1 then
            { st with warnings := st.warnings ++
                ["⚠️ " ++ entry.1 ++ ": Missing \x27Quantity\x27 column. Assuming 0 stock."] }
          else st
        let df := add_title_size_column df0 (idc.2.2.getD "") idc.1
        let inv' := processRows all_locations entry.1 df.cols idc.2.1 df.rows st1.inventory
        { inventory := inv', warnings := st1.warnings,
          enriched := st1.enriched ++ [(entry.1, df)] }

/-- `core.load_inventory_from_uploads` (`core.py` lines 122–174): build the
inventory map, warnings and augmented previews from the uploaded location
files, in upload order. -/
def load_inventory_from_uploads (uploads : List (String × Option DataFrame)) :
    Inventory × List String × List (String × DataFrame) :=
  let all_locations := uploads.map Prod.fst
  let st := uploads.foldl (processFile all_locations) ⟨[], [], []⟩
  (st.inventory, st.warnings, st.enriched)

/-- The per-row precomputation of `core.add_stock_columns_from_inventory`
(`core.py` lines 190–196): (title, size, full key, title-only key). -/
def rowKeyOf (cols : List String) (item_name_col : String) (row : List PyVal) :
    String × String × String × String :=
  let ts := item_name_to_title_size (rowGet cols row item_name_col (.strV ""))
  let key := build_title_size_key ts.1 ts.2
  let title_only := if ts.1 ≠ "" then build_title_size_key ts.1 "NO_SIZE" else ""
  (ts.1, ts.2, key, title_only)

/-- The inner row loop of one location pass of
`core.add_stock_columns_from_inventory` (`core.py` lines 199–212): build
the column values in row order and add matching row indices to the
matched set. -/
def locPass (inv : Inventory) (loc : String) :
    Nat → List (String × String × String × String) → Finset ℕ → List Int × Finset ℕ
  | _, [], m => ([], m)
  | i, k :: ks, m =>
      let key := k.2.2.1
      let tOnly := k.2.2.2
      let fv : Int × Bool :=
        if key ≠ "" ∧ (List.lookup key inv).isSome then
          (recGet ((List.lookup key inv).getD []) loc, true)
        else if tOnly ≠ "" ∧ (List.lookup tOnly inv).isSome then
          (recGet ((List.lookup tOnly inv).getD []) loc, true)
        else (0, false)
      let m' := if fv.2 then insert i m else m
      let rest := locPass inv loc (i + 1) ks m'
      (fv.1 :: rest.1, rest.2)

/-- One location pass of `core.add_stock_columns_from_inventory`
(`core.py` lines 198–213): run the row loop, then `df[loc] = vals`. -/
def stockStep (inv : Inventory) (keys : List (String × String × String × String))
    (acc : DataFrame × Finset ℕ) (loc : String) : DataFrame × Finset ℕ :=
  let pr := locPass inv loc 0 keys acc.2
  (setCol acc.1 loc (pr.1.map PyVal.intV), pr.2)

/-- `core.add_stock_columns_from_inventory` (`core.py` lines 177–215):
append one integer stock column per location to (a copy of) the product
list by the two-tier key lookup, and count the rows that matched at least
once across all location passes. -/
def add_stock_columns_from_inventory (product_df : DataFrame) (item_name_col : String)
    (inv : Inventory) (locations : List String) : DataFrame × ℕ :=
  let keys := product_df.rows.map (rowKeyOf product_df.cols item_name_col)
  let res := locations.foldl (stockStep inv keys) (product_df, (∅ : Finset ℕ))
  (res.1, res.2.card)

/-- The match-rate metric of the application (`app.py` lines 241–244):
`(match_count / total) * 100 if total else 0`.  Python float division is
modelled as exact rational division; the guarded branch structure is
exactly the code's. -/
def perc_metric (match_count total : ℕ) : ℚ :=
  if total ≠ 0 then ((match_count : ℚ) / (total : ℚ)) * 100 else 0

/-- The group-id assignment loop of the application (`app.py` lines
273–283): missing/blank group values get -1, others get 0, 1, 2, … in
order of first appearance of each distinct trimmed string value (`seen`
is the dict of already-numbered keys, in insertion order). -/
def assignGroupIdsAux (seen : List String) : List PyVal → List Int
  | [] => []
  | v :: vs =>
      if isNA v ∨ pyStrip (pyStr v) = "" then (-1) :: assignGroupIdsAux seen vs
      else
        let key := pyStrip (pyStr v)
        match colIdx seen key with
        | some i => (i : Int) :: assignGroupIdsAux seen vs
        | Option.none => (seen.length : Int) :: assignGroupIdsAux (seen ++ [key]) vs

/-- Group ids for a column of group values (`app.py` lines 273–283). -/
def assignGroupIds (vals : List PyVal) : List Int := assignGroupIdsAux [] vals

/-- Distinct values of a list in order of first appearance (the group
order of `groupby(..., sort=False)`). -/
def distinctInOrder (l : List Int) : List Int :=
  l.foldl (fun acc i => if acc.contains i then acc else acc ++ [i]) []

/-- The fully blank separator row of the application (`app.py` line 290):
empty string in every column except `-1` in the group-id column. -/
def blankRow (cols : List String) : List PyVal :=
  cols.map (fun c => if c = "_group_id_" then PyVal.intV (-1) else PyVal.strV "")

/-- The "Blank row between orders" branch of the application (`app.py`
lines 273–293) on an already sorted table: append the `_group_id_` column,
group rows by id in first-appearance order, append one blank row after
every group whose id is not -1, then drop the LAST part when more than one
part exists (the source comment intends "the trailing blank").  The result
is the displayed/exported row list (still carrying the group-id column).
`rows` are the data rows and `gvals` the group column's values, row
aligned. -/
def blank_row_between_orders (cols : List String) (rows : List (List PyVal))
    (gvals : List PyVal) : List (List PyVal) :=
  let ids := assignGroupIds gvals
  let withGid := map2 (fun (r : List PyVal) (g : Int) => r ++ [PyVal.intV g]) rows ids
  let gidCols := cols ++ ["_group_id_"]
  let rowsIds := map2 (fun (r : List PyVal) (g : Int) => (r, g)) rows ids
  let parts : List (List (List PyVal)) :=
    (distinctInOrder ids).foldl
      (fun acc g =>
        let grp := (rowsIds.filter (fun p => p.2 = g)).map (fun p => p.1 ++ [PyVal.intV p.2])
        if g ≠ -1 then acc ++ [grp, [blankRow gidCols]] else acc ++ [grp])
      []
  if parts.length > 1 then parts.dropLast.flatten else withGid

/-- The heap of dataframe objects, for stating what the join does NOT
mutate.  Each dataframe variable of the source is an index into `dfs`. -/
structure Store where
  dfs : List DataFrame

/-- `df[c] = vals` on the dataframe object at index `idx` of the store:
an in-place mutation of that object, every other object untouched. -/
def storeSetCol (st : Store) (idx : Nat) (c : String) (vals : List PyVal) : Store :=
  match st.dfs[idx]? with
  | some df => ⟨st.dfs.set idx (setCol df c vals)⟩
  | Option.none => st

/-- One location pass of the join, acting on the store: the column write
goes to the object at `copyIdx`. -/
def storeStockStep (inv : Inventory) (keys : List (String × String × String × String))
    (copyIdx : Nat) (acc : Store × Finset ℕ) (loc : String) : Store × Finset ℕ :=
  let pr := locPass inv loc 0 keys acc.2
  (storeSetCol acc.1 copyIdx loc (pr.1.map PyVal.intV), pr.2)

/-- `core.add_stock_columns_from_inventory` with the object mutations made
explicit (`core.py` lines 187–215): `df = product_df.copy()` allocates a
fresh object at the end of the store, and every `df[loc] = vals` mutates
only that fresh object.  Returns the store, the index of the result object
and the matched-row count. -/
def add_stock_columns_st (st : Store) (pidx : Nat) (item_name_col : String)
    (inv : Inventory) (locations : List String) : Store × Nat × ℕ :=
  let product_df := (st.dfs[pidx]?).getD ⟨[], []⟩
  let copyIdx := st.dfs.length
  let st1 : Store := ⟨st.dfs ++ [product_df]⟩
  let keys := product_df.rows.map (rowKeyOf product_df.cols item_name_col)
  let fin := locations.foldl (storeStockStep inv keys copyIdx) (st1, (∅ : Finset ℕ))
  (fin.1, copyIdx, fin.2.card)

/-! ### Character-level facts about the ASCII model -/

set_option maxRecDepth 8000 in
lemma charOfNat_toNat_small : ∀ k, k < 256 → (Char.ofNat k).toNat = k := by decide

lemma charToNat_inj {c a : Char} (h : c.toNat = a.toNat) : c = a := by
  have h2 := congrArg Char.ofNat h
  rwa [Char.ofNat_toNat, Char.ofNat_toNat] at h2

lemma lowC_eq_self_of_not_upper {c : Char} (h : ¬(65 ≤ c.toNat ∧ c.toNat ≤ 90)) :
    lowC c = c := if_neg h

lemma lowC_toNat_of_upper {c : Char} (h : 65 ≤ c.toNat ∧ c.toNat ≤ 90) :
    (lowC c).toNat = c.toNat + 32 := by
  unfold lowC
  rw [if_pos h]
  exact charOfNat_toNat_small _ (by omega)

lemma lowC_low (c : Char) : lowC (lowC c) = lowC c := by
  by_cases h : 65 ≤ c.toNat ∧ c.toNat ≤ 90
  · have hd := lowC_toNat_of_upper h
    exact lowC_eq_self_of_not_upper (by omega)
  · rw [lowC_eq_self_of_not_upper h, lowC_eq_self_of_not_upper h]

lemma isPySpace_lowC (c : Char) : isPySpace (lowC c) = isPySpace c := by
  apply Bool.eq_iff_iff.mpr
  by_cases h : 65 ≤ c.toNat ∧ c.toNat ≤ 90
  · have hd := lowC_toNat_of_upper h
    simp only [isPySpace, Bool.or_eq_true, decide_eq_true_eq]
    omega
  · rw [lowC_eq_self_of_not_upper h]

lemma isDigitCh_lowC (c : Char) : isDigitCh (lowC c) = isDigitCh c := by
  apply Bool.eq_iff_iff.mpr
  by_cases h : 65 ≤ c.toNat ∧ c.toNat ≤ 90
  · have hd := lowC_toNat_of_upper h
    simp only [isDigitCh, Bool.and_eq_true, decide_eq_true_eq]
    omega
  · rw [lowC_eq_self_of_not_upper h]

lemma lowC_eq_iff_of_lt65 {a : Char} (ha : a.toNat < 65) (c : Char) :
    lowC c = a ↔ c = a := by
  constructor
  · intro h
    by_cases hu : 65 ≤ c.toNat ∧ c.toNat ≤ 90
    · have hd := lowC_toNat_of_upper hu
      have := congrArg Char.toNat h
      omega
    · rwa [lowC_eq_self_of_not_upper hu] at h
  · rintro rfl
    exact lowC_eq_self_of_not_upper (by omega)

/-! ### Facts about decimal digit strings -/

lemma natReprAux_mem : ∀ fuel n acc c, c ∈ natReprAux fuel n acc →
    c ∈ acc ∨ ∃ d, d < 10 ∧ c = Char.ofNat (48 + d) := by
  intro fuel
  induction fuel with
  | zero => intro n acc c h; exact Or.inl h
  | succ fuel ih =>
      intro n acc c h
      simp only [natReprAux] at h
      by_cases hn : n < 10
      · rw [if_pos hn] at h
        rcases List.mem_cons.mp h with h1 | h1
        · exact Or.inr ⟨n % 10, Nat.mod_lt _ (by omega), h1⟩
        · exact Or.inl h1
      · rw [if_neg hn] at h
        rcases ih (n / 10) _ c h with h1 | h1
        · rcases List.mem_cons.mp h1 with h2 | h2
          · exact Or.inr ⟨n % 10, Nat.mod_lt _ (by omega), h2⟩
          · exact Or.inl h2
        · exact Or.inr h1

lemma digit_char_facts : ∀ d, d < 10 →
    isDigitCh (Char.ofNat (48 + d)) = true ∧ isPySpace (Char.ofNat (48 + d)) = false ∧
    Char.ofNat (48 + d) ≠ '.' := by decide

lemma intReprStr_chars {n : Int} {c : Char} (h : c ∈ (intReprStr n).data) :
    isPySpace c = false ∧ c ≠ '.' := by
  have hdash : isPySpace '-' = false ∧ ('-' : Char) ≠ '.' := by decide
  have hdigit : ∀ m : Nat, c ∈ natRepr m → isPySpace c = false ∧ c ≠ '.' := by
    intro m hm
    rcases natReprAux_mem _ _ _ _ hm with h1 | ⟨d, hd, rfl⟩
    · simp at h1
    · exact ⟨(digit_char_facts d hd).2.1, (digit_char_facts d hd).2.2⟩
  unfold intReprStr at h
  by_cases hn : n < 0
  · rw [if_pos hn] at h
    rcases List.mem_cons.mp h with h1 | h1
    · subst h1; exact hdash
    · exact hdigit _ h1
  · rw [if_neg hn] at h
    exact hdigit _ h

lemma dropWhile_eq_self_of_all {p : Char → Bool} {l : List Char}
    (h : ∀ c ∈ l, p c = false) : l.dropWhile p = l := by
  cases l with
  | nil => rfl
  | cons a as =>
      rw [List.dropWhile_cons, if_neg]
      simp [h a (List.mem_cons_self a as)]

lemma pyStripList_eq_self {l : List Char} (h : ∀ c ∈ l, isPySpace c = false) :
    pyStripList l = l := by
  unfold pyStripList
  rw [dropWhile_eq_self_of_all h, dropWhile_eq_self_of_all, List.reverse_reverse]
  intro c hc
  exact h c (List.mem_reverse.mp hc)

lemma isSuffixOf_dot_zero_false {l : List Char} (h : '.' ∉ l) :
    List.isSuffixOf ['.', '0'] l = false := by
  apply Bool.eq_false_iff.mpr
  intro hs
  unfold List.isSuffixOf at hs
  have hp := List.isPrefixOf_iff_prefix.mp hs
  rcases hp with ⟨t, ht⟩
  apply h
  apply List.mem_reverse.mp
  rw [← ht]
  simp

/-- C5: for every integer `n`, Normalize Key applied to the int `n`, to the
finite integral float `n.0`, and to the decimal text string of `n` all
return the decimal string of `n` (no fractional part); in particular
`123`, `123.0` and `"123"` all normalize to `"123"`. -/
theorem c5_normalize_key_integer_forms :
    (∀ n : Int,
      normalize_key (.intV n) = intReprStr n ∧
      normalize_key (.floatV (n : ℚ)) = intReprStr n ∧
      normalize_key (.strV (intReprStr n)) = intReprStr n) ∧
    normalize_key (.intV 123) = "123" ∧ normalize_key (.floatV (123 : ℚ)) = "123" ∧
    normalize_key (.strV "123") = "123" := by
  refine ⟨fun n => ⟨rfl, ?_, ?_⟩, by decide, by decide, by decide⟩
  · simp [normalize_key, Rat.den_intCast, Rat.num_intCast]
  · show normalize_key (.strV (intReprStr n)) = intReprStr n
    have hstrip : pyStrip (intReprStr n) = intReprStr n := by
      unfold pyStrip
      rw [pyStripList_eq_self (fun c hc => (intReprStr_chars hc).1)]
    have hend : pyEndsWith (pyStrip (intReprStr n)) ".0" = false := by
      rw [hstrip]
      unfold pyEndsWith
      exact isSuffixOf_dot_zero_false (fun hmem => (intReprStr_chars hmem).2 rfl)
    unfold normalize_key
    simp only [hend, Bool.false_and, Bool.false_eq_true, if_false]
    exact hstrip

/-! ### The two-tier lookup cascade as the specification states it -/

/-- The quantity the specification assigns to a row (with full key `key`
and title-only key `tOnly`) at location `loc`: the full key's stored value
when the (non-empty) full key is present in the inventory map, else the
title-only key's stored value when that (non-empty) key is present, else
0. -/
def cellSpec (inv : Inventory) (key tOnly loc : String) : Int :=
  if key ≠ "" ∧ (List.lookup key inv).isSome then
    recGet ((List.lookup key inv).getD []) loc
  else if tOnly ≠ "" ∧ (List.lookup tOnly inv).isSome then
    recGet ((List.lookup tOnly inv).getD []) loc
  else 0

/-- A row counts as matched when its (non-empty) full key or its
(non-empty) title-only key is present in the inventory map. -/
def rowMatchB (inv : Inventory) (k : String × String × String × String) : Bool :=
  decide ((k.2.2.1 ≠ "" ∧ (List.lookup k.2.2.1 inv).isSome) ∨
    (k.2.2.2 ≠ "" ∧ (List.lookup k.2.2.2 inv).isSome))

/-- The set of row indices, counted from `i`, whose row matches. -/
def matchedFrom (inv : Inventory) :
    Nat → List (String × String × String × String) → Finset ℕ
  | _, [] => ∅
  | i, k :: ks => (if rowMatchB inv k then {i} else ∅) ∪ matchedFrom inv (i + 1) ks

/-! ### List and table helper lemmas -/

lemma map2_nil_left {α β γ : Type} (f : α → β → γ) (bs : List β) : map2 f [] bs = [] := by
  cases bs <;> rfl

lemma map2_nil_right {α β γ : Type} (f : α → β → γ) (as : List α) : map2 f as [] = [] := by
  cases as <;> rfl

lemma map2_length {α β γ : Type} (f : α → β → γ) :
    ∀ (as : List α) (bs : List β), (map2 f as bs).length = min as.length bs.length := by
  intro as
  induction as with
  | nil => intro bs; rw [map2_nil_left]; simp
  | cons a as ih =>
      intro bs
      cases bs with
      | nil => rw [map2_nil_right]; simp
      | cons b bs => simp [map2, ih bs]; omega

lemma map2_getElem? {α β γ : Type} (f : α → β → γ) :
    ∀ (as : List α) (bs : List β) (i : Nat),
      (map2 f as bs)[i]? = as[i]?.bind (fun a => bs[i]?.map (f a)) := by
  intro as
  induction as with
  | nil => intro bs i; rw [map2_nil_left]; simp
  | cons a as ih =>
      intro bs i
      cases bs with
      | nil => rw [map2_nil_right]; simp
      | cons b bs =>
          cases i with
          | zero => simp [map2]
          | succ i => simp [map2, ih bs i]

lemma mem_map2 {α β γ : Type} (f : α → β → γ) :
    ∀ (as : List α) (bs : List β) (c : γ), c ∈ map2 f as bs →
      ∃ a b, a ∈ as ∧ b ∈ bs ∧ c = f a b := by
  intro as
  induction as with
  | nil => intro bs c h; rw [map2_nil_left] at h; simp at h
  | cons a as ih =>
      intro bs c h
      cases bs with
      | nil => rw [map2_nil_right] at h; simp at h
      | cons b bs =>
          rcases List.mem_cons.mp h with h1 | h1
          · exact ⟨a, b, List.mem_cons_self _ _, List.mem_cons_self _ _, h1⟩
          · rcases ih bs c h1 with ⟨a', b', ha, hb, hc⟩
            exact ⟨a', b', List.mem_cons_of_mem _ ha, List.mem_cons_of_mem _ hb, hc⟩

lemma colIdx_bound {cols : List String} {c : String} :
    ∀ {j}, colIdx cols c = some j → j < cols.length ∧ cols[j]? = some c := by
  induction cols with
  | nil => intro j h; simp [colIdx] at h
  | cons c0 cs ih =>
      intro j h
      simp only [colIdx] at h
      by_cases he : c0 = c
      · rw [if_pos he] at h
        cases h
        subst he
        simp
      · rw [if_neg he] at h
        rcases Option.map_eq_some'.mp h with ⟨j', hj', rfl⟩
        rcases ih hj' with ⟨h1, h2⟩
        exact ⟨by simpa using h1, by simpa using h2⟩

lemma colIdx_append_of_some {cols : List String} {c : String} {j : Nat}
    (h : colIdx cols c = some j) (l' : List String) : colIdx (cols ++ l') c = some j := by
  induction cols generalizing j with
  | nil => simp [colIdx] at h
  | cons c0 cs ih =>
      rw [List.cons_append]
      simp only [colIdx] at h ⊢
      by_cases he : c0 = c
      · rw [if_pos he] at h ⊢; exact h
      · rw [if_neg he] at h ⊢
        rcases Option.map_eq_some'.mp h with ⟨j', hj', rfl⟩
        rw [ih hj']
        rfl

lemma colIdx_append_of_none {cols : List String} {c : String}
    (h : colIdx cols c = Option.none) (d : String) :
    colIdx (cols ++ [d]) c = if d = c then some cols.length else Option.none := by
  induction cols with
  | nil =>
      simp only [List.nil_append, colIdx, List.length_nil]
      by_cases hd : d = c
      · rw [if_pos hd, if_pos hd]
      · rw [if_neg hd, if_neg hd]; rfl
  | cons c0 cs ih =>
      rw [List.cons_append]
      simp only [colIdx] at h ⊢
      by_cases he : c0 = c
      · rw [if_pos he] at h; cases h
      · rw [if_neg he] at h ⊢
        rw [ih (Option.map_eq_none'.mp h)]
        by_cases hd : d = c
        · rw [if_pos hd, if_pos hd]; simp
        · rw [if_neg hd, if_neg hd]; rfl

lemma getElem?_some_lt {α : Type} {l : List α} {i : Nat} {a : α} (h : l[i]? = some a) :
    i < l.length := by
  by_contra hn
  rw [List.getElem?_eq_none (by omega)] at h
  cases h

lemma getElem?_some_mem {α : Type} {l : List α} {i : Nat} {a : α} (h : l[i]? = some a) :
    a ∈ l := by
  have hlt := getElem?_some_lt h
  rw [List.getElem?_eq_getElem hlt] at h
  cases h
  exact List.getElem_mem hlt

lemma getCell_eq {df : DataFrame} {i : Nat} {c : String} {j : Nat} {r : List PyVal}
    (h1 : colIdx df.cols c = some j) (h2 : df.rows[i]? = some r) :
    getCell df i c = r[j]? := by
  unfold getCell
  rw [h1, h2]

lemma getCell_of_col_none {df : DataFrame} {i : Nat} {c : String}
    (h1 : colIdx df.cols c = Option.none) : getCell df i c = Option.none := by
  unfold getCell
  rw [h1]

lemma getCell_of_row_none {df : DataFrame} {i : Nat} {c : String}
    (h2 : df.rows[i]? = Option.none) : getCell df i c = Option.none := by
  unfold getCell
  rw [h2]
  cases colIdx df.cols c <;> rfl

lemma setCol_of_none {df : DataFrame} {c : String} (vals : List PyVal)
    (hidx : colIdx df.cols c = Option.none) :
    setCol df c vals = ⟨df.cols ++ [c], map2 (fun r v => r ++ [v]) df.rows vals⟩ := by
  unfold setCol
  rw [hidx]

lemma setCol_of_some {df : DataFrame} {c : String} {j : Nat} (vals : List PyVal)
    (hidx : colIdx df.cols c = some j) :
    setCol df c vals = { df with rows := map2 (fun r v => r.set j v) df.rows vals } := by
  unfold setCol
  rw [hidx]

lemma setCol_rows_length (df : DataFrame) (c : String) (vals : List PyVal)
    (h : vals.length = df.rows.length) : (setCol df c vals).rows.length = df.rows.length := by
  unfold setCol
  cases hidx : colIdx df.cols c <;> simp [map2_length, h]

lemma setCol_wf {df : DataFrame} {c : String} {vals : List PyVal}
    (hwf : dfWF df) (_h : vals.length = df.rows.length) : dfWF (setCol df c vals) := by
  unfold setCol
  cases hidx : colIdx df.cols c with
  | none =>
      intro r hr
      rcases mem_map2 _ _ _ _ hr with ⟨a, b, ha, _, rfl⟩
      simp [hwf a ha]
  | some j =>
      intro r hr
      rcases mem_map2 _ _ _ _ hr with ⟨a, b, ha, _, rfl⟩
      simp [hwf a ha]

lemma getCell_setCol_self {df : DataFrame} {c : String} {vals : List PyVal} (i : Nat)
    (hwf : dfWF df) (h : vals.length = df.rows.length) :
    getCell (setCol df c vals) i c = vals[i]? := by
  by_cases hi : i < df.rows.length
  · have hrow : df.rows[i]? = some df.rows[i] := List.getElem?_eq_getElem hi
    have hmem : df.rows[i] ∈ df.rows := List.getElem_mem hi
    have hlen : (df.rows[i]).length = df.cols.length := hwf _ hmem
    have hv : vals[i]? = some vals[i] := List.getElem?_eq_getElem (by omega)
    cases hidx : colIdx df.cols c with
    | none =>
        rw [setCol_of_none vals hidx]
        have hidx2 : colIdx (df.cols ++ [c]) c = some df.cols.length := by
          rw [colIdx_append_of_none hidx c, if_pos rfl]
        have hmap : (map2 (fun r v => r ++ [v]) df.rows vals)[i]? =
            some (df.rows[i] ++ [vals[i]]) := by
          rw [map2_getElem?, hrow, hv]
          rfl
        have hgc : getCell ⟨df.cols ++ [c], map2 (fun r v => r ++ [v]) df.rows vals⟩ i c =
            (df.rows[i] ++ [vals[i]])[df.cols.length]? := getCell_eq hidx2 hmap
        rw [hgc, List.getElem?_append_right (by omega), hlen]
        simp [hv]
    | some j =>
        have hj := colIdx_bound hidx
        rw [setCol_of_some vals hidx]
        have hmap : (map2 (fun r v => r.set j v) df.rows vals)[i]? =
            some ((df.rows[i]).set j vals[i]) := by
          rw [map2_getElem?, hrow, hv]
          rfl
        have hgc : getCell ⟨df.cols, map2 (fun r v => r.set j v) df.rows vals⟩ i c =
            ((df.rows[i]).set j vals[i])[j]? := getCell_eq hidx hmap
        rw [hgc, List.getElem?_set_self (by omega), hv]
  · have hrow : df.rows[i]? = Option.none := List.getElem?_eq_none (by omega)
    have hv : vals[i]? = Option.none := List.getElem?_eq_none (by omega)
    have hmap : ∀ (f : List PyVal → PyVal → List PyVal),
        (map2 f df.rows vals)[i]? = Option.none := by
      intro f
      rw [map2_getElem?, hrow]
      rfl
    rw [hv]
    cases hidx : colIdx df.cols c with
    | none =>
        rw [setCol_of_none vals hidx]
        exact @getCell_of_row_none ⟨df.cols ++ [c], map2 (fun r v => r ++ [v]) df.rows vals⟩
          i c (hmap _)
    | some j =>
        rw [setCol_of_some vals hidx]
        exact @getCell_of_row_none ⟨df.cols, map2 (fun r v => r.set j v) df.rows vals⟩
          i c (hmap _)

lemma getCell_setCol_ne {df : DataFrame} {c c' : String} {vals : List PyVal} (i : Nat)
    (hne : c' ≠ c) (hwf : dfWF df) (h : vals.length = df.rows.length) :
    getCell (setCol df c vals) i c' = getCell df i c' := by
  by_cases hi : i < df.rows.length
  case neg =>
    have hrow : df.rows[i]? = Option.none := List.getElem?_eq_none (by omega)
    have hmap : ∀ (f : List PyVal → PyVal → List PyVal),
        (map2 f df.rows vals)[i]? = Option.none := by
      intro f
      rw [map2_getElem?, hrow]
      rfl
    rw [getCell_of_row_none hrow]
    cases hidx : colIdx df.cols c with
    | none =>
        rw [setCol_of_none vals hidx]
        exact @getCell_of_row_none ⟨df.cols ++ [c], map2 (fun r v => r ++ [v]) df.rows vals⟩
          i c' (hmap _)
    | some j =>
        rw [setCol_of_some vals hidx]
        exact @getCell_of_row_none ⟨df.cols, map2 (fun r v => r.set j v) df.rows vals⟩
          i c' (hmap _)
  case pos =>
    have hrow : df.rows[i]? = some df.rows[i] := List.getElem?_eq_getElem hi
    have hmem : df.rows[i] ∈ df.rows := List.getElem_mem hi
    have hlen : (df.rows[i]).length = df.cols.length := hwf _ hmem
    have hv : vals[i]? = some vals[i] := List.getElem?_eq_getElem (by omega)
    cases hidx : colIdx df.cols c with
    | none =>
        rw [setCol_of_none vals hidx]
        have hmap : (map2 (fun r v => r ++ [v]) df.rows vals)[i]? =
            some (df.rows[i] ++ [vals[i]]) := by
          rw [map2_getElem?, hrow, hv]
          rfl
        cases hidx' : colIdx df.cols c' with
        | none =>
            have h2 : colIdx (df.cols ++ [c]) c' = Option.none := by
              rw [colIdx_append_of_none hidx' c, if_neg (fun he => hne he.symm)]
            have hgc : getCell ⟨df.cols ++ [c], map2 (fun r v => r ++ [v]) df.rows vals⟩ i c' =
                Option.none := getCell_of_col_none h2
            rw [hgc, getCell_of_col_none hidx']
        | some j' =>
            have h2 : colIdx (df.cols ++ [c]) c' = some j' := colIdx_append_of_some hidx' [c]
            have hj' := colIdx_bound hidx'
            have hgc : getCell ⟨df.cols ++ [c], map2 (fun r v => r ++ [v]) df.rows vals⟩ i c' =
                (df.rows[i] ++ [vals[i]])[j']? := getCell_eq h2 hmap
            rw [hgc, getCell_eq hidx' hrow, List.getElem?_append_left (by omega)]
    | some j =>
        have hj := colIdx_bound hidx
        rw [setCol_of_some vals hidx]
        have hmap : (map2 (fun r v => r.set j v) df.rows vals)[i]? =
            some ((df.rows[i]).set j vals[i]) := by
          rw [map2_getElem?, hrow, hv]
          rfl
        cases hidx' : colIdx df.cols c' with
        | none =>
            have hgc : getCell ⟨df.cols, map2 (fun r v => r.set j v) df.rows vals⟩ i c' =
                Option.none := getCell_of_col_none hidx'
            rw [hgc, getCell_of_col_none hidx']
        | some j' =>
            have hj' := colIdx_bound hidx'
            have hjj : j ≠ j' := by
              intro he
              subst he
              rw [hj.2] at hj'
              have := hj'.2
              cases this
              exact hne rfl
            have hgc : getCell ⟨df.cols, map2 (fun r v => r.set j v) df.rows vals⟩ i c' =
                ((df.rows[i]).set j vals[i])[j']? := getCell_eq hidx' hmap
            rw [hgc, getCell_eq hidx' hrow, List.getElem?_set_ne hjj]

/-! ### Characterising the location passes of the join -/

lemma locPass_fst (inv : Inventory) (loc : String) :
    ∀ (ks : List (String × String × String × String)) (i : Nat) (m : Finset ℕ),
      (locPass inv loc i ks m).1 =
        ks.map (fun k => cellSpec inv k.2.2.1 k.2.2.2 loc) := by
  intro ks
  induction ks with
  | nil => intro i m; rfl
  | cons k ks ih =>
      intro i m
      simp only [locPass, List.map_cons]
      refine congrArg₂ List.cons ?_ (ih _ _)
      unfold cellSpec
      split_ifs <;> rfl

lemma ite_true_or {P Q : Prop} [Decidable P] [Decidable Q] :
    (if P then true else if Q then true else false) = decide (P ∨ Q) := by
  by_cases hp : P <;> by_cases hq : Q <;> simp [hp, hq]

lemma locPass_snd (inv : Inventory) (loc : String) :
    ∀ (ks : List (String × String × String × String)) (i : Nat) (m : Finset ℕ),
      (locPass inv loc i ks m).2 = m ∪ matchedFrom inv i ks := by
  intro ks
  induction ks with
  | nil => intro i m; simp [locPass, matchedFrom]
  | cons k ks ih =>
      intro i m
      simp only [locPass, apply_ite Prod.snd]
      rw [ih]
      simp only [matchedFrom, ite_true_or, rowMatchB, decide_eq_true_eq]
      split_ifs with hm
      · ext a
        simp only [Finset.mem_union, Finset.mem_insert, Finset.mem_singleton]
        tauto
      · rw [Finset.empty_union]

lemma mem_matchedFrom (inv : Inventory) :
    ∀ (ks : List (String × String × String × String)) (i j : Nat),
      j ∈ matchedFrom inv i ks → i ≤ j := by
  intro ks
  induction ks with
  | nil => intro i j h; simp [matchedFrom] at h
  | cons k ks ih =>
      intro i j h
      simp only [matchedFrom, Finset.mem_union] at h
      rcases h with h | h
      · split_ifs at h with hc
        · simp at h; omega
        · simp at h
      · have := ih (i + 1) j h
        omega

lemma matchedFrom_card (inv : Inventory) :
    ∀ (ks : List (String × String × String × String)) (i : Nat),
      (matchedFrom inv i ks).card = ks.countP (rowMatchB inv) := by
  intro ks
  induction ks with
  | nil => intro i; simp [matchedFrom]
  | cons k ks ih =>
      intro i
      simp only [matchedFrom, List.countP_cons]
      split_ifs with hc
      · have hdisj : Disjoint ({i} : Finset ℕ) (matchedFrom inv (i + 1) ks) := by
          simp only [Finset.disjoint_singleton_left]
          intro hmem
          have := mem_matchedFrom inv ks (i + 1) i hmem
          omega
        rw [Finset.card_union_of_disjoint hdisj, Finset.card_singleton, ih]
        omega
      · rw [Finset.empty_union, ih]
        omega

lemma stockFold_snd (inv : Inventory) (keys : List (String × String × String × String)) :
    ∀ (locs : List String) (acc : DataFrame × Finset ℕ),
      (locs.foldl (stockStep inv keys) acc).2 =
        if locs = [] then acc.2 else acc.2 ∪ matchedFrom inv 0 keys := by
  intro locs
  induction locs with
  | nil => intro acc; simp
  | cons l rest ih =>
      intro acc
      rw [List.foldl_cons, ih]
      have hstep : (stockStep inv keys acc l).2 = acc.2 ∪ matchedFrom inv 0 keys :=
        locPass_snd inv l keys 0 acc.2
      by_cases hr : rest = []
      · simp [hr, hstep]
      · rw [if_neg hr, if_neg (by simp), hstep]
        ext a
        simp only [Finset.mem_union]
        tauto

lemma stockFold_invariants (inv : Inventory) (keys : List (String × String × String × String)) :
    ∀ (locs : List String) (acc : DataFrame × Finset ℕ),
      dfWF acc.1 → acc.1.rows.length = keys.length →
      dfWF (locs.foldl (stockStep inv keys) acc).1 ∧
        (locs.foldl (stockStep inv keys) acc).1.rows.length = keys.length := by
  intro locs
  induction locs with
  | nil => intro acc h1 h2; exact ⟨h1, h2⟩
  | cons l rest ih =>
      intro acc h1 h2
      rw [List.foldl_cons]
      have hvlen : ((locPass inv l 0 keys acc.2).1.map PyVal.intV).length = acc.1.rows.length := by
        rw [List.length_map, locPass_fst, List.length_map, h2]
      refine ih _ ?_ ?_
      · show dfWF (setCol acc.1 l ((locPass inv l 0 keys acc.2).1.map PyVal.intV))
        exact setCol_wf h1 hvlen
      · show (setCol acc.1 l ((locPass inv l 0 keys acc.2).1.map PyVal.intV)).rows.length = _
        rw [setCol_rows_length _ _ _ hvlen, h2]

lemma stockFold_preserve_other (inv : Inventory)
    (keys : List (String × String × String × String)) (loc : String) (i : Nat) :
    ∀ (locs : List String) (acc : DataFrame × Finset ℕ),
      loc ∉ locs → dfWF acc.1 → acc.1.rows.length = keys.length →
      getCell (locs.foldl (stockStep inv keys) acc).1 i loc = getCell acc.1 i loc := by
  intro locs
  induction locs with
  | nil => intro acc _ _ _; rfl
  | cons l rest ih =>
      intro acc hnot h1 h2
      rw [List.foldl_cons]
      have hlne : loc ≠ l := fun he => hnot (he ▸ List.mem_cons_self _ _)
      have hrest : loc ∉ rest := fun hm => hnot (List.mem_cons_of_mem _ hm)
      have hvlen : ((locPass inv l 0 keys acc.2).1.map PyVal.intV).length = acc.1.rows.length := by
        rw [List.length_map, locPass_fst, List.length_map, h2]
      have hwf2 : dfWF (stockStep inv keys acc l).1 := setCol_wf h1 hvlen
      have hlen2 : (stockStep inv keys acc l).1.rows.length = keys.length := by
        show (setCol acc.1 l ((locPass inv l 0 keys acc.2).1.map PyVal.intV)).rows.length = _
        rw [setCol_rows_length _ _ _ hvlen, h2]
      rw [ih _ hrest hwf2 hlen2]
      exact getCell_setCol_ne i hlne h1 hvlen

lemma stockFold_cell (inv : Inventory) (keys : List (String × String × String × String))
    (loc : String) (i : Nat) :
    ∀ (locs : List String) (acc : DataFrame × Finset ℕ),
      loc ∈ locs → dfWF acc.1 → acc.1.rows.length = keys.length →
      getCell (locs.foldl (stockStep inv keys) acc).1 i loc =
        (keys.map (fun k => PyVal.intV (cellSpec inv k.2.2.1 k.2.2.2 loc)))[i]? := by
  intro locs
  induction locs with
  | nil => intro acc h; simp at h
  | cons l rest ih =>
      intro acc hmem h1 h2
      rw [List.foldl_cons]
      have hvlen : ((locPass inv l 0 keys acc.2).1.map PyVal.intV).length = acc.1.rows.length := by
        rw [List.length_map, locPass_fst, List.length_map, h2]
      have h1' : dfWF (stockStep inv keys acc l).1 := setCol_wf h1 hvlen
      have h2' : (stockStep inv keys acc l).1.rows.length = keys.length := by
        show (setCol acc.1 l ((locPass inv l 0 keys acc.2).1.map PyVal.intV)).rows.length = _
        rw [setCol_rows_length _ _ _ hvlen, h2]
      by_cases hr : loc ∈ rest
      · exact ih _ hr h1' h2'
      · have hl : loc = l := by
          rcases List.mem_cons.mp hmem with h | h
          · exact h
          · exact absurd h hr
        subst hl
        rw [stockFold_preserve_other inv keys loc i rest _ hr h1' h2']
        show getCell (setCol acc.1 loc ((locPass inv loc 0 keys acc.2).1.map PyVal.intV)) i loc = _
        rw [getCell_setCol_self i h1 hvlen]
        rw [locPass_fst, List.map_map]
        rfl

/-- C2: in Add Stock Columns From Inventory, for every row and every
active location the written cell is the two-tier cascade value (full key
first, then title-only key, else 0), and the matched-row count is the
number of rows whose full or title-only key is present in the inventory
map.  The witness instantiates the claim's example: item name
"Blue Shirt - XL" against an inventory holding only "blue shirt" with
quantity 4 receives 4 and is counted matched. -/
theorem c2_two_tier_lookup_and_match_count (df : DataFrame) (colName : String)
    (inv : Inventory) (locs : List String) (hwf : dfWF df) :
    (∀ loc ∈ locs, ∀ i : Nat,
      getCell (add_stock_columns_from_inventory df colName inv locs).1 i loc =
        (df.rows[i]?).map (fun r =>
          PyVal.intV (cellSpec inv (rowKeyOf df.cols colName r).2.2.1
            (rowKeyOf df.cols colName r).2.2.2 loc))) ∧
    (locs ≠ [] →
      (add_stock_columns_from_inventory df colName inv locs).2 =
        df.rows.countP (fun r => rowMatchB inv (rowKeyOf df.cols colName r))) := by
  constructor
  · intro loc hloc i
    simp only [add_stock_columns_from_inventory]
    rw [stockFold_cell inv _ loc i locs (df, ∅) hloc hwf (by simp)]
    rw [List.map_map, List.getElem?_map]
    exact Option.map_congr (fun a _ => rfl)
  · intro hne
    simp only [add_stock_columns_from_inventory]
    rw [stockFold_snd]
    rw [if_neg hne, Finset.empty_union, matchedFrom_card, List.countP_map]
    exact List.countP_congr (fun r _ => by rw [Function.comp_apply])

/-- Witness for C2 at the claim's own example. -/
theorem c2_witness :
    getCell (add_stock_columns_from_inventory ⟨["Item Name"], [[.strV "Blue Shirt - XL"]]⟩
        "Item Name" [("blue shirt", [("Ecom", 4)])] ["Ecom"]).1 0 "Ecom" =
      some (.intV 4) ∧
    (add_stock_columns_from_inventory ⟨["Item Name"], [[.strV "Blue Shirt - XL"]]⟩
        "Item Name" [("blue shirt", [("Ecom", 4)])] ["Ecom"]).2 = 1 := by
  have h := c2_two_tier_lookup_and_match_count ⟨["Item Name"], [[.strV "Blue Shirt - XL"]]⟩
    "Item Name" [("blue shirt", [("Ecom", 4)])] ["Ecom"]
    (by intro r hr; rw [List.mem_singleton] at hr; subst hr; rfl)
  exact ⟨(h.1 "Ecom" (by decide) 0).trans (by decide), (h.2 (by decide)).trans (by decide)⟩

/-! ### Case-insensitivity of key building -/

lemma strip_map_low (l : List Char) : pyStripList (l.map lowC) = (pyStripList l).map lowC := by
  unfold pyStripList
  have hpf : isPySpace ∘ lowC = isPySpace := funext isPySpace_lowC
  rw [List.dropWhile_map, hpf, ← List.map_reverse, List.dropWhile_map, hpf, ← List.map_reverse]

lemma isPrefixOf_map_low :
    ∀ (pat : List Char), (∀ a ∈ pat, a.toNat < 65) →
      ∀ l, pat.isPrefixOf (l.map lowC) = pat.isPrefixOf l := by
  intro pat
  induction pat with
  | nil => intro _ l; cases l <;> rfl
  | cons a ps ih =>
      intro hpat l
      cases l with
      | nil => rfl
      | cons c cs =>
          simp only [List.map_cons]
          show (a == lowC c && ps.isPrefixOf (cs.map lowC)) = (a == c && ps.isPrefixOf cs)
          have hhead : (a == lowC c) = (a == c) := by
            apply Bool.eq_iff_iff.mpr
            simp only [beq_iff_eq]
            constructor
            · intro h
              exact ((lowC_eq_iff_of_lt65 (hpat a (List.mem_cons_self a ps)) c).mp h.symm).symm
            · rintro rfl
              exact ((lowC_eq_iff_of_lt65 (hpat a (List.mem_cons_self a ps)) a).mpr rfl).symm
          rw [hhead, ih (fun x hx => hpat x (List.mem_cons_of_mem a hx)) cs]

lemma isSuffixOf_map_low (pat : List Char) (hpat : ∀ a ∈ pat, a.toNat < 65) (l : List Char) :
    pat.isSuffixOf (l.map lowC) = pat.isSuffixOf l := by
  unfold List.isSuffixOf
  rw [← List.map_reverse]
  exact isPrefixOf_map_low pat.reverse (fun a ha => hpat a (List.mem_reverse.mp ha)) l.reverse

lemma removeFirstDot_map_low : ∀ l, removeFirstDot (l.map lowC) = (removeFirstDot l).map lowC := by
  intro l
  induction l with
  | nil => rfl
  | cons c cs ih =>
      simp only [List.map_cons, removeFirstDot]
      by_cases h : c = '.'
      · rw [if_pos ((lowC_eq_iff_of_lt65 (by decide) c).mpr h), if_pos h]
      · rw [if_neg (fun he => h ((lowC_eq_iff_of_lt65 (by decide) c).mp he)), if_neg h,
          List.map_cons, ih]

lemma dropLast2_map (l : List Char) : dropLast2 (l.map lowC) = (dropLast2 l).map lowC := by
  unfold dropLast2
  rw [← List.map_dropLast, ← List.map_dropLast]

lemma pyIsDigitStr_map_low (l : List Char) : pyIsDigitStr (l.map lowC) = pyIsDigitStr l := by
  unfold pyIsDigitStr
  have h1 : (l.map lowC).isEmpty = l.isEmpty := by cases l <;> rfl
  have hcf : isDigitCh ∘ lowC = isDigitCh := funext isDigitCh_lowC
  rw [h1, List.all_map, hcf]

lemma map_lowC_low (l : List Char) : (l.map lowC).map lowC = l.map lowC := by
  induction l with
  | nil => rfl
  | cons c cs ih => simp only [List.map_cons]; rw [lowC_low, ih]

lemma pyStrip_low (s : String) : pyStrip (pyLower s) = pyLower (pyStrip s) :=
  congrArg String.mk (strip_map_low s.data)

lemma pyLower_empty_iff (s : String) : pyLower s = "" ↔ s = "" := by
  constructor
  · intro h
    have hd := congrArg String.data h
    exact String.ext (List.map_eq_nil_iff.mp hd)
  · rintro rfl; rfl

lemma pyLower_low (s : String) : pyLower (pyLower s) = pyLower s :=
  congrArg String.mk (map_lowC_low s.data)

lemma pyLower_append (a b : String) : pyLower (a ++ b) = pyLower a ++ pyLower b := by
  apply String.ext
  show (a ++ b).data.map lowC = (pyLower a ++ pyLower b).data
  rw [String.data_append, List.map_append, String.data_append]
  rfl

lemma pyEndsWith_low_dotzero (s : String) : pyEndsWith (pyLower s) ".0" = pyEndsWith s ".0" := by
  unfold pyEndsWith
  exact isSuffixOf_map_low ".0".data (by decide) s.data

lemma lowC_ne_upperN (c : Char) : lowC c ≠ 'N' := by
  intro he
  have hN : ('N' : Char).toNat = 78 := rfl
  by_cases h : 65 ≤ c.toNat ∧ c.toNat ≤ 90
  · have hd := lowC_toNat_of_upper h
    have h2 := congrArg Char.toNat he
    omega
  · rw [lowC_eq_self_of_not_upper h] at he
    subst he
    exact h (by decide)

lemma lower_ne_NOSIZE (x : String) : pyLower x ≠ "NO_SIZE" := by
  intro h
  have hd : x.data.map lowC = ['N', 'O', '_', 'S', 'I', 'Z', 'E'] := congrArg String.data h
  cases hx : x.data with
  | nil => rw [hx] at hd; cases hd
  | cons c cs =>
      rw [hx] at hd
      simp only [List.map_cons] at hd
      injection hd with h1 _
      exact lowC_ne_upperN c h1

lemma normKey_low (s : String) :
    normalize_key (.strV (pyLower s)) = pyLower (normalize_key (.strV s)) := by
  simp only [normalize_key]
  rw [pyStrip_low]
  have hend := pyEndsWith_low_dotzero (pyStrip s)
  have hdata : (pyLower (pyStrip s)).data = (pyStrip s).data.map lowC := rfl
  have hdig : pyIsDigitStr (removeFirstDot (dropLast2 (pyLower (pyStrip s)).data)) =
      pyIsDigitStr (removeFirstDot (dropLast2 (pyStrip s).data)) := by
    rw [hdata, dropLast2_map, removeFirstDot_map_low, pyIsDigitStr_map_low]
  rw [hend, hdig]
  by_cases hc : (pyEndsWith (pyStrip s) ".0" &&
      pyIsDigitStr (removeFirstDot (dropLast2 (pyStrip s).data))) = true
  · rw [if_pos hc, if_pos hc]
    exact congrArg String.mk (by rw [hdata, dropLast2_map])
  · rw [if_neg hc, if_neg hc]

lemma normSize_str_eq (x : String) (hx : x ≠ "") (hxs : pyStrip x ≠ "") :
    normalize_size (.strV x) =
      (if noSizeVariants.contains
          (pyLower (if pyEndsWith (pyStrip x) ".0" then (⟨dropLast2 (pyStrip x).data⟩ : String)
            else pyStrip x)) then "NO_SIZE"
       else (if pyEndsWith (pyStrip x) ".0" then (⟨dropLast2 (pyStrip x).data⟩ : String)
         else pyStrip x)) := by
  unfold normalize_size
  rw [if_neg (by simp [isNA, hx])]
  simp only [pyStr]
  rw [if_neg hxs]

lemma normSize_low (s : String) :
    normalize_size (.strV (pyLower s)) =
      if normalize_size (.strV s) = "NO_SIZE" then "NO_SIZE"
      else pyLower (normalize_size (.strV s)) := by
  by_cases hs : s = ""
  · subst hs; decide
  · have hlne : pyLower s ≠ "" := fun h => hs ((pyLower_empty_iff s).mp h)
    by_cases hts : pyStrip s = ""
    · have h1 : pyStrip (pyLower s) = "" := by rw [pyStrip_low, hts]; rfl
      have hL : normalize_size (.strV (pyLower s)) = "NO_SIZE" := by
        unfold normalize_size
        rw [if_neg (by simp [isNA, hlne])]
        simp only [pyStr]
        rw [if_pos h1]
      have hR : normalize_size (.strV s) = "NO_SIZE" := by
        unfold normalize_size
        rw [if_neg (by simp [isNA, hs])]
        simp only [pyStr]
        rw [if_pos hts]
      rw [hL, hR, if_pos rfl]
    · have hlts : pyStrip (pyLower s) ≠ "" := by
        rw [pyStrip_low]
        intro h
        exact hts ((pyLower_empty_iff _).mp h)
      rw [normSize_str_eq (pyLower s) hlne hlts, normSize_str_eq s hs hts]
      rw [pyStrip_low, pyEndsWith_low_dotzero]
      have hu : (if pyEndsWith (pyStrip s) ".0" then
            (⟨dropLast2 (pyLower (pyStrip s)).data⟩ : String) else pyLower (pyStrip s)) =
          pyLower (if pyEndsWith (pyStrip s) ".0" then (⟨dropLast2 (pyStrip s).data⟩ : String)
            else pyStrip s) := by
        by_cases he : pyEndsWith (pyStrip s) ".0" = true
        · rw [if_pos he, if_pos he]
          exact congrArg String.mk (dropLast2_map (pyStrip s).data)
        · rw [if_neg he, if_neg he]
      rw [hu, pyLower_low]
      by_cases hcont : noSizeVariants.contains
          (pyLower (if pyEndsWith (pyStrip s) ".0" then (⟨dropLast2 (pyStrip s).data⟩ : String)
            else pyStrip s)) = true
      · rw [if_pos hcont, if_pos hcont, if_pos rfl]
      · have hune : (if pyEndsWith (pyStrip s) ".0" then
            (⟨dropLast2 (pyStrip s).data⟩ : String) else pyStrip s) ≠ "NO_SIZE" := by
          intro h
          rw [h] at hcont
          exact hcont (by decide)
        rw [if_neg hcont, if_neg hcont, if_neg hune]

lemma buildKey_low (t s : String) :
    build_title_size_key (pyLower t) (pyLower s) = build_title_size_key t s := by
  simp only [build_title_size_key]
  rw [normKey_low, pyStrip_low, normSize_low]
  have hsep : ∀ a b : String, pyLower (a ++ " - " ++ b) = pyLower a ++ " - " ++ pyLower b := by
    intro a b
    rw [pyLower_append, pyLower_append]
    rfl
  by_cases ht0 : pyStrip (normalize_key (.strV t)) = ""
  · rw [ht0]
    rw [if_pos (show pyLower "" = "" from rfl), if_pos rfl]
  · have hlt0 : pyLower (pyStrip (normalize_key (.strV t))) ≠ "" :=
      fun h => ht0 ((pyLower_empty_iff _).mp h)
    rw [if_neg hlt0, if_neg ht0]
    by_cases hns : normalize_size (.strV s) = "NO_SIZE"
    · rw [if_pos hns]
      rw [if_neg (fun h => h.2 rfl), if_neg (fun h => h.2 hns)]
      exact pyLower_low _
    · rw [if_neg hns]
      by_cases hse : normalize_size (.strV s) = ""
      · rw [hse]
        rw [if_neg (fun h => h.1 rfl), if_neg (fun h => h.1 rfl)]
        exact pyLower_low _
      · have h1 : pyLower (normalize_size (.strV s)) ≠ "" :=
          fun h => hse ((pyLower_empty_iff _).mp h)
        have h2 : pyLower (normalize_size (.strV s)) ≠ "NO_SIZE" := lower_ne_NOSIZE _
        rw [if_pos ⟨h1, h2⟩, if_pos ⟨hse, hns⟩]
        rw [hsep, hsep, pyLower_low, pyLower_low]

/-- C6: Build Title-Size Key is case-insensitive — any two case-variant
title/size inputs (inputs with the same lowercase folding) produce
byte-identical keys; in particular ("Blue Shirt", "M") and
("BLUE SHIRT", "m") both produce "blue shirt - m". -/
theorem c6_key_case_insensitive :
    (∀ t1 t2 s1 s2 : String, pyLower t1 = pyLower t2 → pyLower s1 = pyLower s2 →
      build_title_size_key t1 s1 = build_title_size_key t2 s2) ∧
    build_title_size_key "Blue Shirt" "M" = "blue shirt - m" ∧
    build_title_size_key "BLUE SHIRT" "m" = "blue shirt - m" := by
  refine ⟨?_, by decide, by decide⟩
  intro t1 t2 s1 s2 hT hS
  rw [← buildKey_low t1 s1, ← buildKey_low t2 s2, hT, hS]

/-- Witness for C6 at the claim's example pair. -/
theorem c6_witness :
    build_title_size_key "Blue Shirt" "M" = build_title_size_key "BLUE SHIRT" "m" :=
  c6_key_case_insensitive.1 "Blue Shirt" "BLUE SHIRT" "M" "m" (by decide) (by decide)

/-! ### Location-key invariant of the inventory map -/

lemma recAdd_keys : ∀ (rec : LocRecord) (loc : String) (q : Int),
    (recAdd rec loc q).map Prod.fst = rec.map Prod.fst := by
  intro rec
  induction rec with
  | nil => intro loc q; rfl
  | cons p ps ih =>
      intro loc q
      simp only [recAdd]
      by_cases h : p.1 = loc
      · rw [if_pos h]
        rfl
      · rw [if_neg h]
        simp [ih]

lemma invUpsert_keys {inv : Inventory} {all : List String}
    (hinv : ∀ p ∈ inv, p.2.map Prod.fst = all) (key loc : String) (q : Int) :
    ∀ p ∈ invUpsert inv all key loc q, p.2.map Prod.fst = all := by
  intro p hp
  unfold invUpsert at hp
  cases hl : List.lookup key inv with
  | some rec =>
      rw [hl] at hp
      rcases List.mem_map.mp hp with ⟨p0, hp0, rfl⟩
      by_cases h : p0.1 = key
      · rw [if_pos h]
        show (recAdd p0.2 loc q).map Prod.fst = all
        rw [recAdd_keys]
        exact hinv p0 hp0
      · rw [if_neg h]
        exact hinv p0 hp0
  | none =>
      rw [hl] at hp
      rcases List.mem_append.mp hp with h | h
      · exact hinv p h
      · rw [List.mem_singleton] at h
        subst h
        show (recAdd (all.map (fun l => (l, 0))) loc q).map Prod.fst = all
        rw [recAdd_keys, List.map_map]
        exact List.map_id'' (fun _ => rfl) all

lemma processRows_keys (all : List String) (loc : String) (cols : List String)
    (qc : Option String) :
    ∀ (rows : List (List PyVal)) (inv : Inventory),
      (∀ p ∈ inv, p.2.map Prod.fst = all) →
      ∀ p ∈ processRows all loc cols qc rows inv, p.2.map Prod.fst = all := by
  intro rows
  induction rows with
  | nil => intro inv hinv; exact hinv
  | cons r rs ih =>
      intro inv hinv
      simp only [processRows]
      apply ih
      split_ifs <;>
        first
          | exact hinv
          | exact invUpsert_keys hinv _ _ _

lemma processFile_keys (all : List String) (st : LoadState)
    (entry : String × Option DataFrame)
    (hinv : ∀ p ∈ st.inventory, p.2.map Prod.fst = all) :
    ∀ p ∈ (processFile all st entry).inventory, p.2.map Prod.fst = all := by
  obtain ⟨name, fo⟩ := entry
  cases fo with
  | none => exact hinv
  | some df0 =>
      simp only [processFile]
      split_ifs with ht hq
      · exact hinv
      · exact processRows_keys all name _ _ _ _ hinv
      · exact processRows_keys all name _ _ _ _ hinv

lemma loadFold_keys (all : List String) :
    ∀ (files : List (String × Option DataFrame)) (st : LoadState),
      (∀ p ∈ st.inventory, p.2.map Prod.fst = all) →
      ∀ p ∈ (files.foldl (processFile all) st).inventory, p.2.map Prod.fst = all := by
  intro files
  induction files with
  | nil => intro st hinv; exact hinv
  | cons f fs ih =>
      intro st hinv
      rw [List.foldl_cons]
      exact ih _ (processFile_keys all st f hinv)

/-- C9: every per-location quantity record in the inventory map built by
Load Inventory From Uploads carries exactly the location names of the
input mapping, in input order — including locations whose file was absent
or processed later, which a fresh record initializes to 0. -/
theorem c9_inventory_record_locations (uploads : List (String × Option DataFrame)) :
    ∀ p ∈ (load_inventory_from_uploads uploads).1,
      p.2.map Prod.fst = uploads.map Prod.fst := by
  intro p hp
  simp only [load_inventory_from_uploads] at hp
  exact loadFold_keys (uploads.map Prod.fst) uploads ⟨[], [], []⟩
    (by intro q hq; exact absurd hq (List.not_mem_nil q)) p hp

/-- Witness for C9: one uploaded file for Ecom and an absent Mirpur file;
the single record carries both locations, Mirpur initialized to 0. -/
theorem c9_witness :
    ("mug", ([("Ecom", 3), ("Mirpur", 0)] : LocRecord)) ∈
      (load_inventory_from_uploads
        [("Ecom", some ⟨["Item Name", "Qty"], [[.strV "Mug", .intV 3]]⟩),
         ("Mirpur", Option.none)]).1 ∧
    ([("Ecom", 3), ("Mirpur", 0)] : LocRecord).map Prod.fst =
      [("Ecom", some (⟨["Item Name", "Qty"], [[.strV "Mug", .intV 3]]⟩ : DataFrame)),
       ("Mirpur", Option.none)].map Prod.fst := by
  refine ⟨by decide, ?_⟩
  exact c9_inventory_record_locations
    [("Ecom", some ⟨["Item Name", "Qty"], [[.strV "Mug", .intV 3]]⟩), ("Mirpur", Option.none)]
    ("mug", [("Ecom", 3), ("Mirpur", 0)]) (by decide)

/-! ### Frame property of the join over the store of dataframe objects -/

lemma storeSetCol_get_ne {st : Store} {idx j : Nat} (h : j ≠ idx) (c : String)
    (vals : List PyVal) : (storeSetCol st idx c vals).dfs[j]? = st.dfs[j]? := by
  unfold storeSetCol
  cases hidx : st.dfs[idx]? with
  | none => rfl
  | some df => exact List.getElem?_set_ne (fun he => h he.symm)

lemma storeFold_get_ne (inv : Inventory) (keys : List (String × String × String × String))
    (copyIdx j : Nat) (h : j ≠ copyIdx) :
    ∀ (locs : List String) (acc : Store × Finset ℕ),
      (locs.foldl (storeStockStep inv keys copyIdx) acc).1.dfs[j]? = acc.1.dfs[j]? := by
  intro locs
  induction locs with
  | nil => intro acc; rfl
  | cons l rest ih =>
      intro acc
      rw [List.foldl_cons, ih]
      exact storeSetCol_get_ne h _ _

/-- C10: the join never mutates its input product-list object, nor any
other pre-existing dataframe object: it copies the product list into a
fresh store slot and writes its location columns only there, so every
object that existed before the call reads back unchanged afterwards. -/
theorem c10_add_stock_frame (st : Store) (pidx : Nat) (colName : String) (inv : Inventory)
    (locs : List String) (j : Nat) (hj : j < st.dfs.length) :
    (add_stock_columns_st st pidx colName inv locs).1.dfs[j]? = st.dfs[j]? := by
  simp only [add_stock_columns_st]
  rw [storeFold_get_ne inv _ st.dfs.length j (by omega) locs]
  exact List.getElem?_append_left hj

/-- Witness for C10: a one-object store whose product list reads back
unchanged after the join wrote a location column to the copy. -/
theorem c10_witness :
    (add_stock_columns_st ⟨[⟨["Item Name"], [[.strV "Blue Shirt - XL"]]⟩]⟩ 0 "Item Name"
        [("blue shirt", [("Ecom", 4)])] ["Ecom"]).1.dfs[0]? =
      some ⟨["Item Name"], [[.strV "Blue Shirt - XL"]]⟩ := by
  have h := c10_add_stock_frame ⟨[⟨["Item Name"], [[.strV "Blue Shirt - XL"]]⟩]⟩ 0 "Item Name"
    [("blue shirt", [("Ecom", 4)])] ["Ecom"] 0 (by decide)
  exact h.trans (by decide)

/-- C7 counterexample: the item name "A - B - no size" contains two
occurrences of " - ", and the part after the last one normalizes to the
sentinel, so the code returns the WHOLE string as Title instead of the
part before the last separator — the claim's universal split rule fails
here. -/
theorem c7_counterexample :
    item_name_to_title_size (.strV "A - B - no size") = ("A - B - no size", "NO_SIZE") ∧
    item_name_to_title_size (.strV "A - B - no size") ≠ ("A - B", "NO_SIZE") := by
  constructor
  · decide
  · decide

/-- C7 (amended): the full dichotomy of Split Item Name.  First conjunct:
it splits at the LAST occurrence of " - " whenever the trimmed left part
is non-empty and the right part normalizes to an actual size (neither
empty nor the NO_SIZE sentinel).  Second conjunct (the "otherwise"
clause, for EVERY input): whenever no such split exists — no separator at
all, a left part that trims to empty, or a right part normalizing to
empty or to the sentinel — the whole (re-trimmed) normalized string
becomes the Title with Size "NO_SIZE".  The claim's examples hold:
"Men's T - Shirt - Large" gives ("Men's T - Shirt", "Large") and
"Plain Mug" gives ("Plain Mug", "NO_SIZE"). -/
theorem c7_split_at_last_separator :
    (∀ (s l r : String),
      splitLastSep (normalize_key (.strV s)) = some (l, r) →
      pyStrip l ≠ "" →
      normalize_size (.strV (pyStrip r)) ≠ "" →
      normalize_size (.strV (pyStrip r)) ≠ "NO_SIZE" →
      item_name_to_title_size (.strV s) = (pyStrip l, normalize_size (.strV (pyStrip r)))) ∧
    (∀ s : String,
      (∀ l r : String, splitLastSep (normalize_key (.strV s)) = some (l, r) →
        pyStrip l = "" ∨ normalize_size (.strV (pyStrip r)) = "" ∨
        normalize_size (.strV (pyStrip r)) = "NO_SIZE") →
      item_name_to_title_size (.strV s) = (pyStrip (normalize_key (.strV s)), "NO_SIZE")) ∧
    item_name_to_title_size (.strV "Men\x27s T - Shirt - Large") =
      ("Men\x27s T - Shirt", "Large") ∧
    item_name_to_title_size (.strV "Plain Mug") = ("Plain Mug", "NO_SIZE") := by
  refine ⟨?_, ?_, by decide, by decide⟩
  · intro s l r hsplit ht hs1 hs2
    unfold item_name_to_title_size
    rw [if_neg (by simp)]
    by_cases hempty : normalize_key (.strV s) = ""
    · rw [hempty] at hsplit
      rw [show splitLastSep "" = Option.none from rfl] at hsplit
      cases hsplit
    · rw [if_neg hempty, hsplit]
      show (if pyStrip l ≠ "" ∧ normalize_size (.strV (pyStrip r)) ≠ "" ∧
          normalize_size (.strV (pyStrip r)) ≠ "NO_SIZE" then _ else _) = _
      rw [if_pos ⟨ht, hs1, hs2⟩]
  · intro s hfb
    unfold item_name_to_title_size
    rw [if_neg (by simp)]
    by_cases hempty : normalize_key (.strV s) = ""
    · rw [hempty, if_pos rfl]
      rfl
    · rw [if_neg hempty]
      cases hsp : splitLastSep (normalize_key (.strV s)) with
      | none => rfl
      | some p =>
          obtain ⟨l, r⟩ := p
          show (if pyStrip l ≠ "" ∧ normalize_size (.strV (pyStrip r)) ≠ "" ∧
              normalize_size (.strV (pyStrip r)) ≠ "NO_SIZE" then _ else _) = _
          rcases hfb l r hsp with h1 | h2 | h3
          · rw [if_neg (fun hc => hc.1 h1)]
          · rw [if_neg (fun hc => hc.2.1 h2)]
          · rw [if_neg (fun hc => hc.2.2 h3)]

/-- Witness for C7: one concrete item name through each side of the
dichotomy — a two-separator name that splits, and a name whose last right
part normalizes to the sentinel and therefore falls back whole. -/
theorem c7_witness :
    item_name_to_title_size (.strV "A - B - Large") = ("A - B", "Large") ∧
    item_name_to_title_size (.strV "A - B - no size") = ("A - B - no size", "NO_SIZE") := by
  constructor
  · have h := c7_split_at_last_separator.1 "A - B - Large" "A - B" "Large"
      (by decide) (by decide) (by decide) (by decide)
    exact h.trans (by decide)
  · have h := c7_split_at_last_separator.2.1 "A - B - no size" (by
      intro l r h
      rw [show splitLastSep (normalize_key (.strV "A - B - no size")) =
        some ("A - B", "no size") from by decide] at h
      injection h with hp
      rw [Prod.mk.injEq] at hp
      obtain ⟨rfl, rfl⟩ := hp
      decide)
    exact h.trans (by decide)

/-- C8: the match-rate metric is matched/total × 100 with the division
guarded by the total: a non-zero total takes the division branch, a zero
total yields 0 without dividing; in particular the join of an empty
product list returns matched count 0 and row count 0, for which the metric
is 0. -/
theorem c8_match_rate_guarded :
    (∀ mc t : ℕ,
      (t ≠ 0 → perc_metric mc t = (mc : ℚ) / (t : ℚ) * 100) ∧ perc_metric mc 0 = 0) ∧
    (∀ (df : DataFrame) (colName : String) (inv : Inventory) (locs : List String),
      df.rows = [] →
      (add_stock_columns_from_inventory df colName inv locs).2 = 0 ∧
      perc_metric (add_stock_columns_from_inventory df colName inv locs).2
        (add_stock_columns_from_inventory df colName inv locs).1.rows.length = 0) := by
  constructor
  · intro mc t
    constructor
    · intro ht
      simp [perc_metric, ht]
    · simp [perc_metric]
  · intro df colName inv locs hrows
    have hwf : dfWF df := by
      intro r hr
      rw [hrows] at hr
      exact absurd hr (List.not_mem_nil r)
    have hkeys : df.rows.map (rowKeyOf df.cols colName) = [] := by rw [hrows]; rfl
    have hcount : (add_stock_columns_from_inventory df colName inv locs).2 = 0 := by
      simp only [add_stock_columns_from_inventory]
      rw [stockFold_snd]
      by_cases hl : locs = []
      · rw [if_pos hl]; rfl
      · rw [if_neg hl, hkeys]
        simp [matchedFrom]
    refine ⟨hcount, ?_⟩
    have hlen : (add_stock_columns_from_inventory df colName inv locs).1.rows.length = 0 := by
      simp only [add_stock_columns_from_inventory]
      have hinv := (stockFold_invariants inv (df.rows.map (rowKeyOf df.cols colName)) locs
        (df, ∅) hwf (by simp)).2
      rw [hinv, List.length_map, hrows]
      rfl
    rw [hlen]
    simp [perc_metric]

/-- Witness for C8: the metric at 7 of 10 rows, the zero-total guard, and
the join of an empty product list. -/
theorem c8_witness :
    perc_metric 7 10 = (7 : ℚ) / 10 * 100 ∧ perc_metric 7 0 = 0 ∧
    (add_stock_columns_from_inventory ⟨["Item Name"], []⟩ "Item Name" [] ["Ecom"]).2 = 0 := by
  refine ⟨(c8_match_rate_guarded.1 7 10).1 (by decide), (c8_match_rate_guarded.1 7 0).2, ?_⟩
  exact (c8_match_rate_guarded.2 ⟨["Item Name"], []⟩ "Item Name" [] ["Ecom"] rfl).1

/-- C1: against the claim, the core library's Identify Columns yields THREE
results — Size, Quantity and Title columns — and no SKU slot: on a product
list with headers Size, Qty, Item Name and SKU its entire result is the
triple below, in which the SKU header contributes nothing; the
application's four-way unpacking of this result (`app.py` line 213) has no
fourth component to bind. -/
theorem c1_identify_columns_yields_triple :
    identify_columns ["Size", "Qty", "Item Name", "SKU"] =
      (some "Size", some "Qty", some "Item Name") := by decide

/-- C3: against the claim, Title detection in `core.identify_columns` is
first-match in column order, not preference-ordered: with headers
`["Title", "Item Name"]` the earlier header containing "title" is locked in
and the later "item name" header is ignored, so the Title column is
`"Title"`, not `"Item Name"`. -/
theorem c3_title_first_match_beats_item_name :
    identify_columns ["Title", "Item Name"] = (Option.none, Option.none, some "Title") := by
  decide

/-- C4: against the claim, when the ungrouped rows (group-id -1) come last,
the "Blank row between orders" construction drops them instead of the
trailing blank: for 3 detected groups (A, B, C) followed by one ungrouped
row, the output has THREE blank separator rows (not 2), ends with a blank
row (not a data row), and the ungrouped row is absent from the output. -/
theorem c4_blank_row_branch_drops_ungrouped :
    blank_row_between_orders ["Order"] [[.strV "A"], [.strV "B"], [.strV "C"], [.nanV]]
        [.strV "A", .strV "B", .strV "C", .nanV] =
      [[.strV "A", .intV 0], [.strV "", .intV (-1)],
       [.strV "B", .intV 1], [.strV "", .intV (-1)],
       [.strV "C", .intV 2], [.strV "", .intV (-1)]] ∧
    [PyVal.nanV, PyVal.intV (-1)] ∉
      blank_row_between_orders ["Order"] [[.strV "A"], [.strV "B"], [.strV "C"], [.nanV]]
        [.strV "A", .strV "B", .strV "C", .nanV] := by
  constructor
  · decide
  · decide

end InvDist
